import Mathlib

/-!
Verification of the Synapse upload orchestrator of kintagen-api.

The embedded code is `src/services/synapse.js`, in particular the
lock-holding fast-return variant of `uploadData` (the one importing
`acquireLock` / `releaseLock` from `lock.service.js`), together with the
earlier fast-return variant that still checks the preflight result, the
`getSynapse` singleton initializer, and the preflight allowance check.

The orchestrator is driven by callbacks from the external storage client
(`storage.upload` with `onUploadComplete`, `onRootAdded`, `onRootConfirmed`,
settling its own promise at the end).  An execution of `uploadData` is
therefore a function of an environment value (`UploadEnv`) recording what
the external collaborators did: whether the setup phase
(`getSynapse` / `createStorage` / `preflightUpload`) rejected, the preflight
result object, the callback invocations in the order they fired, and the
final settlement of the `storage.upload` promise.  The execution itself is
rendered as the list of observable actions the orchestrator performs:
lock acquisition and release, starting the byte transfer, resolving or
rejecting the caller-facing promise, and the null dereference fault that
`capturedCommp.toString()` raises when `onRootAdded` fires before
`onUploadComplete`.
-/

/-- A JavaScript error value: a plain `Error` with a fixed message, or an
opaque error produced by the SDK / network, identified here by a code. -/
inductive JsError
  | message (msg : String)
  | sdk (code : Nat)
  deriving DecidableEq, Repr

/-- The `preflight.allowanceCheck` object returned by
`storage.preflightUpload`: a sufficiency flag plus the required and
currently available allowance amounts (modelled as naturals). -/
structure PreflightResult where
  sufficient : Bool
  required : Nat
  current : Nat
  deriving DecidableEq, Repr

/-- One callback invocation made by `storage.upload`:
`onUploadComplete(commp)`, `onRootAdded(tx)` (the transaction may be null on
legacy servers), or `onRootConfirmed(rootIds)`. -/
inductive UploadEvent
  | uploadComplete (commp : Nat)
  | rootAdded (txHash : Option Nat)
  | rootConfirmed (rootIds : List Nat)
  deriving DecidableEq, Repr

/-- The object `uploadData` resolves to the caller:
`commp` (content identifier), `size` (payload bytes), `proofSetId`
(session identifier). -/
structure UploadResult where
  commp : Nat
  size : Nat
  proofSetId : Nat
  deriving DecidableEq, Repr

/-- An observable action performed by one `uploadData` run. -/
inductive Act
  | acquire
  | release
  | uploadStart
  | resolveCaller (r : UploadResult)
  | rejectCaller (e : JsError)
  | faultNullDeref
  deriving DecidableEq, Repr

/-- The behaviour of the external collaborators during one `uploadData`
call: rejection of the setup phase (`getSynapse` / `createStorage` /
`preflightUpload`), the preflight result object when it resolves, the
callback invocations in order, and the final settlement of the
`storage.upload` promise. -/
structure UploadEnv where
  size : Nat
  proofSetId : Nat
  setupError : Option JsError
  preflight : PreflightResult
  events : List UploadEvent
  uploadOutcome : Except JsError Unit
  deriving Repr

/-- Mutable state of the callback closure inside `uploadData`:
`capturedCommp` (initially null) and the `hasResolvedForUser` flag,
together with the actions performed so far. -/
structure CbState where
  capturedCommp : Option Nat
  hasResolvedForUser : Bool
  actions : List Act
  deriving Repr

/-- One callback invocation, exactly as the handlers in the lock-holding
`uploadData` behave: `onUploadComplete` stores the commp;
`onRootAdded` returns early when `hasResolvedForUser` is set, otherwise
sets the flag and resolves with `capturedCommp.toString()` — a null
dereference when no `onUploadComplete` has fired yet; `onRootConfirmed`
only logs. -/
def stepCallback (size psId : Nat) (st : CbState) (ev : UploadEvent) : CbState :=
  match ev with
  | .uploadComplete c => { st with capturedCommp := some c }
  | .rootAdded _ =>
    if st.hasResolvedForUser then st
    else
      match st.capturedCommp with
      | some c =>
        { capturedCommp := st.capturedCommp
          hasResolvedForUser := true
          actions := st.actions ++ [Act.resolveCaller ⟨c, size, psId⟩] }
      | none =>
        { capturedCommp := none
          hasResolvedForUser := true
          actions := st.actions ++ [Act.faultNullDeref] }
  | .rootConfirmed _ => st

/-- Folding all callback invocations of one run over the closure state. -/
def procEvents (size psId : Nat) (st : CbState) (evs : List UploadEvent) : CbState :=
  evs.foldl (stepCallback size psId) st

/-- Whether any `onRootAdded` invocation occurs in the list. -/
def hasRootAdded : List UploadEvent → Bool
  | [] => false
  | .rootAdded _ :: _ => true
  | _ :: rest => hasRootAdded rest

/-- The value of `capturedCommp` after a list of callback invocations,
starting from a given captured value (initially null). -/
def lastCommpFrom : Option Nat → List UploadEvent → Option Nat
  | cp, [] => cp
  | _, .uploadComplete c :: rest => lastCommpFrom (some c) rest
  | cp, _ :: rest => lastCommpFrom cp rest

/-- Whether a commp has been captured by the time the first `onRootAdded`
fires (given the captured value so far); when no `onRootAdded` occurs the
condition is vacuously true.  This is exactly the condition under which
`capturedCommp.toString()` in `onRootAdded` does not fault. -/
def acceptedFirst : Option Nat → List UploadEvent → Bool
  | _, [] => true
  | _, .uploadComplete c :: rest => acceptedFirst (some c) rest
  | cp, .rootAdded _ :: _ => cp.isSome
  | cp, .rootConfirmed _ :: rest => acceptedFirst cp rest

/-- The actions emitted by the callback handlers alone, as a recursive
function of the captured commp and the `hasResolvedForUser` flag. -/
def emitActions (size psId : Nat) : Option Nat → Bool → List UploadEvent → List Act
  | _, _, [] => []
  | _, hr, .uploadComplete c :: rest => emitActions size psId (some c) hr rest
  | cp, hr, .rootAdded _ :: rest =>
    if hr then emitActions size psId cp hr rest
    else
      match cp with
      | some c => Act.resolveCaller ⟨c, size, psId⟩ :: emitActions size psId cp true rest
      | none => Act.faultNullDeref :: emitActions size psId cp true rest
  | cp, hr, .rootConfirmed _ :: rest => emitActions size psId cp hr rest

/-- The actions of the `.then` / `.catch` continuation attached to
`storage.upload` in the lock-holding `uploadData`: on fulfilment, release
the lock; on rejection, reject the caller when `hasResolvedForUser` is
still unset, then release the lock. -/
def settleTail (hr : Bool) : Except JsError Unit → List Act
  | .ok _ => [Act.release]
  | .error e => (if hr then [] else [Act.rejectCaller e]) ++ [Act.release]

/-- Trace semantics of the lock-holding `uploadData`
(src/services/synapse.js importing lock.service.js): acquire the lock;
on a setup rejection release the lock and reject the caller; otherwise
start `storage.upload` (the preflight result object is never inspected),
run the callback handlers, and settle via the `.then` / `.catch`
continuation. -/
def uploadData (s : UploadEnv) : List Act :=
  Act.acquire ::
    match s.setupError with
    | some e => [Act.release, Act.rejectCaller e]
    | none =>
      Act.uploadStart ::
        ((procEvents s.size s.proofSetId ⟨none, false, []⟩ s.events).actions ++
          settleTail (procEvents s.size s.proofSetId ⟨none, false, []⟩ s.events).hasResolvedForUser
            s.uploadOutcome)

/-- The fixed error thrown by the checked fast-return variant of
`uploadData` when the preflight reports an insufficient allowance. -/
def allowanceErrorFast : JsError :=
  JsError.message ("Allowance not sufficient to upload file.")

/-- Trace semantics of the earlier fast-return variant of `uploadData`
(no lock): it checks `preflight.allowanceCheck.sufficient` and throws a
fixed error before `storage.upload` when insufficient; otherwise it runs
the same callback handlers and only a `.catch` continuation (no release,
no `.then`). -/
def uploadDataFastReturn (s : UploadEnv) : List Act :=
  match s.setupError with
  | some e => [Act.rejectCaller e]
  | none =>
    if s.preflight.sufficient then
      Act.uploadStart ::
        ((procEvents s.size s.proofSetId ⟨none, false, []⟩ s.events).actions ++
          match s.uploadOutcome with
          | Except.ok _ => []
          | Except.error e =>
            if (procEvents s.size s.proofSetId ⟨none, false, []⟩ s.events).hasResolvedForUser then []
            else [Act.rejectCaller e])
    else [Act.rejectCaller allowanceErrorFast]

/-- Structural description of the callback fold: the closure state after
all invocations has the last captured commp, the flag set iff it was set
before or some `onRootAdded` fired, and the previously performed actions
followed by the emitted ones. -/
theorem procEvents_eq (size psId : Nat) :
    ∀ (evs : List UploadEvent) (cp : Option Nat) (hr : Bool) (acts : List Act),
      procEvents size psId ⟨cp, hr, acts⟩ evs =
        ⟨lastCommpFrom cp evs, hr || hasRootAdded evs,
          acts ++ emitActions size psId cp hr evs⟩ := by
  intro evs
  induction evs with
  | nil =>
    intro cp hr acts
    simp [procEvents, lastCommpFrom, hasRootAdded, emitActions]
  | cons e rest ih =>
    intro cp hr acts
    cases e with
    | uploadComplete c =>
      simp only [procEvents, List.foldl_cons, stepCallback] at *
      rw [ih]
      simp [lastCommpFrom, hasRootAdded, emitActions]
    | rootAdded tx =>
      cases hhr : hr with
      | true =>
        simp only [procEvents, List.foldl_cons, stepCallback, if_pos] at *
        rw [ih]
        simp [lastCommpFrom, hasRootAdded, emitActions]
      | false =>
        cases hcp : cp with
        | some c =>
          simp only [procEvents, List.foldl_cons, stepCallback, if_neg] at *
          rw [ih]
          simp [lastCommpFrom, hasRootAdded, emitActions]
        | none =>
          simp only [procEvents, List.foldl_cons, stepCallback, if_neg] at *
          rw [ih]
          simp [lastCommpFrom, hasRootAdded, emitActions]
    | rootConfirmed ids =>
      simp only [procEvents, List.foldl_cons, stepCallback] at *
      rw [ih]
      simp [lastCommpFrom, hasRootAdded, emitActions]

/-- Shape of a lock-holding `uploadData` run whose setup phase succeeded. -/
theorem uploadData_setup_ok (s : UploadEnv) (hse : s.setupError = none) :
    uploadData s =
      Act.acquire :: Act.uploadStart ::
        (emitActions s.size s.proofSetId none false s.events ++
          settleTail (hasRootAdded s.events) s.uploadOutcome) := by
  have h := procEvents_eq s.size s.proofSetId s.events none false []
  unfold uploadData
  rw [hse, h]
  simp

/-- When `hasResolvedForUser` is already set, the callback handlers
perform no further observable actions: `onRootAdded` returns early and
the other handlers only log. -/
theorem emit_hr_true (size psId : Nat) :
    ∀ (evs : List UploadEvent) (cp : Option Nat),
      emitActions size psId cp true evs = [] := by
  intro evs
  induction evs with
  | nil => intro cp; rfl
  | cons e rest ih =>
    intro cp
    cases e with
    | uploadComplete c => simpa [emitActions] using ih (some c)
    | rootAdded tx => simpa [emitActions] using ih cp
    | rootConfirmed ids => simpa [emitActions] using ih cp

/-- Every action the callback handlers emit is a caller resolution or the
null-dereference fault. -/
theorem emit_mem_shape (size psId : Nat) :
    ∀ (evs : List UploadEvent) (cp : Option Nat) (hr : Bool) (a : Act),
      a ∈ emitActions size psId cp hr evs →
        (∃ r, a = Act.resolveCaller r) ∨ a = Act.faultNullDeref := by
  intro evs
  induction evs with
  | nil => intro cp hr a ha; simp [emitActions] at ha
  | cons e rest ih =>
    intro cp hr a ha
    cases e with
    | uploadComplete c => exact ih (some c) hr a (by simpa [emitActions] using ha)
    | rootAdded tx =>
      cases hr with
      | true => exact ih cp true a (by simpa [emitActions] using ha)
      | false =>
        cases cp with
        | some c =>
          simp only [emitActions, Bool.false_eq_true, if_false] at ha
          rcases List.mem_cons.mp ha with h | h
          · exact Or.inl ⟨⟨c, size, psId⟩, h⟩
          · exact ih (some c) true a h
        | none =>
          simp only [emitActions, Bool.false_eq_true, if_false] at ha
          rcases List.mem_cons.mp ha with h | h
          · exact Or.inr h
          · exact ih none true a h
    | rootConfirmed ids => exact ih cp hr a (by simpa [emitActions] using ha)

/-- Whether an action is the lock release. -/
def isRelease : Act → Bool
  | .release => true
  | _ => false

/-- Whether an action settles the caller-facing promise (a resolution or
a rejection). -/
def isSettle : Act → Bool
  | .resolveCaller _ => true
  | .rejectCaller _ => true
  | _ => false

/-- Number of caller-facing settlements in a trace. -/
def settleCount (tr : List Act) : Nat := tr.countP isSettle

/-- The callback handlers settle the caller exactly once when some
`onRootAdded` fires with a commp already captured, and never otherwise. -/
theorem settleCount_emit (size psId : Nat) :
    ∀ (evs : List UploadEvent) (cp : Option Nat),
      (emitActions size psId cp false evs).countP isSettle =
        if hasRootAdded evs && acceptedFirst cp evs then 1 else 0 := by
  intro evs
  induction evs with
  | nil => intro cp; simp [emitActions, hasRootAdded]
  | cons e rest ih =>
    intro cp
    cases e with
    | uploadComplete c =>
      simpa [emitActions, hasRootAdded, acceptedFirst] using ih (some c)
    | rootAdded tx =>
      cases cp with
      | some c =>
        simp [emitActions, hasRootAdded, acceptedFirst, emit_hr_true,
          List.countP_cons, isSettle]
      | none =>
        simp [emitActions, hasRootAdded, acceptedFirst, emit_hr_true,
          List.countP_cons, isSettle]
    | rootConfirmed ids =>
      simpa [emitActions, hasRootAdded, acceptedFirst] using ih cp

/-- Claim C1: in the lock-holding `uploadData`, on every execution —
success with on-chain confirmation, failure before the fast-return point,
failure after it, and an exception raised during session resolution or
preflight — `releaseLock` is invoked exactly once. -/
theorem uploadData_release_exactly_once (s : UploadEnv) :
    (uploadData s).countP isRelease = 1 := by
  cases hse : s.setupError with
  | some e =>
    unfold uploadData
    rw [hse]
    simp [List.countP_cons, isRelease]
  | none =>
    rw [uploadData_setup_ok s hse]
    have h1 : (emitActions s.size s.proofSetId none false s.events).countP isRelease = 0 := by
      rw [List.countP_eq_zero]
      intro a ha
      rcases emit_mem_shape s.size s.proofSetId s.events none false a ha with ⟨r, h⟩ | h <;>
        simp [h, isRelease]
    have h2 : (settleTail (hasRootAdded s.events) s.uploadOutcome).countP isRelease = 1 := by
      cases ho : s.uploadOutcome with
      | ok u => simp [settleTail, List.countP_cons, isRelease]
      | error e =>
        cases hR : hasRootAdded s.events <;>
          simp [settleTail, List.countP_cons, List.countP_append, isRelease]
    simp [List.countP_cons, List.countP_append, h1, h2, isRelease]

/-- Witness for claim C1: a run with an accepted payload, a submitted
commitment and a fulfilled transfer releases the lock exactly once. -/
theorem uploadData_release_exactly_once_witness :
    (uploadData ⟨10, 7, none, ⟨true, 0, 0⟩,
      [UploadEvent.uploadComplete 5, UploadEvent.rootAdded (some 2)],
      Except.ok ()⟩).countP isRelease = 1 :=
  uploadData_release_exactly_once
    ⟨10, 7, none, ⟨true, 0, 0⟩,
      [UploadEvent.uploadComplete 5, UploadEvent.rootAdded (some 2)], Except.ok ()⟩

/-- Claim C2: the caller-facing promise of the lock-holding `uploadData`
is settled exactly once — resolved at the `onRootAdded` milestone or
rejected by an error arising before it — never both and never twice,
even when `onRootAdded` fires more than once.  The hypotheses encode the
milestone discipline the spec assumes of the storage client: the payload
is accepted before the commitment is submitted, and a transfer that
fulfils has reported the submitted milestone. -/
theorem uploadData_settles_exactly_once (s : UploadEnv)
    (hcp : acceptedFirst none s.events = true)
    (hok : s.uploadOutcome = Except.ok () → hasRootAdded s.events = true) :
    settleCount (uploadData s) = 1 := by
  cases hse : s.setupError with
  | some e =>
    unfold uploadData settleCount
    rw [hse]
    simp [List.countP_cons, isSettle]
  | none =>
    unfold settleCount
    rw [uploadData_setup_ok s hse]
    rw [List.countP_cons, List.countP_cons, List.countP_append]
    rw [settleCount_emit s.size s.proofSetId s.events none, hcp]
    cases ho : s.uploadOutcome with
    | ok u =>
      cases u
      rw [hok ho]
      simp [settleTail, isSettle, List.countP_cons]
    | error e =>
      cases hR : hasRootAdded s.events with
      | true => simp [settleTail, isSettle, List.countP_cons]
      | false => simp [settleTail, isSettle, List.countP_cons]

/-- Witness for claim C2 at a concrete run: payload accepted, commitment
submitted, transfer fulfilled. -/
theorem uploadData_settles_exactly_once_witness :
    settleCount (uploadData ⟨10, 7, none, ⟨true, 0, 0⟩,
      [UploadEvent.uploadComplete 5, UploadEvent.rootAdded (some 2)],
      Except.ok ()⟩) = 1 :=
  uploadData_settles_exactly_once
    ⟨10, 7, none, ⟨true, 0, 0⟩,
      [UploadEvent.uploadComplete 5, UploadEvent.rootAdded (some 2)], Except.ok ()⟩
    (by decide) (fun _ => by decide)

/-- An `onRootAdded` invocation anywhere in a concatenation. -/
theorem hasRootAdded_append (l1 l2 : List UploadEvent) :
    hasRootAdded (l1 ++ l2) = (hasRootAdded l1 || hasRootAdded l2) := by
  induction l1 with
  | nil => simp [hasRootAdded]
  | cons e rest ih => cases e <;> simp [hasRootAdded, ih]

/-- Once a result was delivered, the `.then` / `.catch` continuation of
the lock-holding `uploadData` only releases the lock, whether the
transfer fulfils or rejects. -/
theorem settleTail_true (o : Except JsError Unit) :
    settleTail true o = [Act.release] := by
  cases o <;> simp [settleTail]

/-- The callback handlers never release the lock. -/
theorem release_not_mem_emit (size psId : Nat) (evs : List UploadEvent)
    (cp : Option Nat) (hr : Bool) :
    Act.release ∉ emitActions size psId cp hr evs := by
  intro h
  rcases emit_mem_shape size psId evs cp hr Act.release h with ⟨r, h1⟩ | h1 <;> simp at h1

/-- The callback handlers never reject the caller. -/
theorem reject_not_mem_emit (size psId : Nat) (evs : List UploadEvent)
    (cp : Option Nat) (hr : Bool) (e : JsError) :
    Act.rejectCaller e ∉ emitActions size psId cp hr evs := by
  intro h
  rcases emit_mem_shape size psId evs cp hr (Act.rejectCaller e) h
    with ⟨r, h1⟩ | h1 <;> simp at h1

/-- The resolution emitted at the first `onRootAdded`: when no earlier
`onRootAdded` occurred and a commp was captured, the handler resolves
with exactly that commp, the payload size and the proof set id. -/
theorem resolve_mem_emit (size psId : Nat) :
    ∀ (evs1 : List UploadEvent) (cp : Option Nat) (c : Nat) (tx : Option Nat)
      (evs2 : List UploadEvent),
      hasRootAdded evs1 = false → lastCommpFrom cp evs1 = some c →
      Act.resolveCaller ⟨c, size, psId⟩ ∈
        emitActions size psId cp false (evs1 ++ UploadEvent.rootAdded tx :: evs2) := by
  intro evs1
  induction evs1 with
  | nil =>
    intro cp c tx evs2 _ hcp
    simp only [lastCommpFrom] at hcp
    subst hcp
    simp [emitActions]
  | cons e rest ih =>
    intro cp c tx evs2 hfirst hcp
    cases e with
    | uploadComplete c0 =>
      simpa [emitActions] using
        ih (some c0) c tx evs2 (by simpa [hasRootAdded] using hfirst)
          (by simpa [lastCommpFrom] using hcp)
    | rootAdded tx0 => simp [hasRootAdded] at hfirst
    | rootConfirmed ids =>
      simpa [emitActions] using
        ih cp c tx evs2 (by simpa [hasRootAdded] using hfirst)
          (by simpa [lastCommpFrom] using hcp)

/-- Claim C3: the lock-holding `uploadData` completes for the caller at
the `onRootAdded` ("commitment submitted") milestone, resolving with the
captured content identifier, the payload byte size and the proof set
(session) identifier, strictly before the lock release that marks the
terminal milestone — hence without waiting for on-chain confirmation:
the hypotheses impose nothing about `onRootConfirmed` or about the final
outcome of the transfer. -/
theorem uploadData_fast_return_result (s : UploadEnv)
    (evs1 evs2 : List UploadEvent) (tx : Option Nat) (c : Nat)
    (hse : s.setupError = none)
    (hevents : s.events = evs1 ++ UploadEvent.rootAdded tx :: evs2)
    (hfirst : hasRootAdded evs1 = false)
    (hcommp : lastCommpFrom none evs1 = some c) :
    ∃ pre post, uploadData s = pre ++ Act.release :: post ∧
      Act.resolveCaller ⟨c, s.size, s.proofSetId⟩ ∈ pre ∧
      Act.release ∉ pre := by
  have hR : hasRootAdded s.events = true := by
    rw [hevents, hasRootAdded_append]
    simp [hasRootAdded]
  refine ⟨Act.acquire :: Act.uploadStart ::
      emitActions s.size s.proofSetId none false s.events, [], ?_, ?_, ?_⟩
  · rw [uploadData_setup_ok s hse, hR, settleTail_true]
    simp
  · refine List.mem_cons_of_mem _ (List.mem_cons_of_mem _ ?_)
    rw [hevents]
    exact resolve_mem_emit s.size s.proofSetId evs1 none c tx evs2 hfirst hcommp
  · intro hmem
    rcases List.mem_cons.mp hmem with h | h
    · exact absurd h (by simp)
    rcases List.mem_cons.mp h with h' | h'
    · exact absurd h' (by simp)
    · exact release_not_mem_emit s.size s.proofSetId s.events none false h'

/-- Witness for claim C3: the caller receives the result carrying commp
5, size 10 and proof set 7 before any release, in a run whose transfer
ultimately fails after the milestone (so confirmation never happened). -/
theorem uploadData_fast_return_result_witness :
    ∃ pre post,
      uploadData ⟨10, 7, none, ⟨true, 0, 0⟩,
        [UploadEvent.uploadComplete 5, UploadEvent.rootAdded (some 2)],
        Except.error (JsError.sdk 9)⟩ = pre ++ Act.release :: post ∧
      Act.resolveCaller ⟨5, 10, 7⟩ ∈ pre ∧ Act.release ∉ pre :=
  uploadData_fast_return_result
    ⟨10, 7, none, ⟨true, 0, 0⟩,
      [UploadEvent.uploadComplete 5, UploadEvent.rootAdded (some 2)],
      Except.error (JsError.sdk 9)⟩
    [UploadEvent.uploadComplete 5] [] (some 2) 5 rfl rfl (by decide) (by decide)

/-- Claim C5: a run of the lock-holding `uploadData` whose setup phase
succeeded rejects with the transfer error exactly when the transfer
failed and no `onRootAdded` milestone had fired (so the caller had not
yet received a result); a failure after that milestone is never surfaced
to the caller, and the lock is released in every case. -/
theorem uploadData_reject_iff_pre_milestone (s : UploadEnv)
    (hse : s.setupError = none) :
    (∀ e, Act.rejectCaller e ∈ uploadData s ↔
      (s.uploadOutcome = Except.error e ∧ hasRootAdded s.events = false)) ∧
    Act.release ∈ uploadData s := by
  rw [uploadData_setup_ok s hse]
  constructor
  · intro e
    constructor
    · intro hmem
      rcases List.mem_cons.mp hmem with h | h
      · exact absurd h (by simp)
      rcases List.mem_cons.mp h with h' | h'
      · exact absurd h' (by simp)
      rcases List.mem_append.mp h' with h2 | h2
      · exact absurd h2 (reject_not_mem_emit s.size s.proofSetId s.events none false e)
      · cases ho : s.uploadOutcome with
        | ok u => rw [ho] at h2; simp [settleTail] at h2
        | error e0 =>
          rw [ho] at h2
          cases hR : hasRootAdded s.events with
          | true => rw [hR] at h2; simp [settleTail] at h2
          | false =>
            rw [hR] at h2
            simp [settleTail] at h2
            exact ⟨by rw [h2], rfl⟩
    · rintro ⟨ho, hR⟩
      rw [ho, hR]
      refine List.mem_cons_of_mem _ (List.mem_cons_of_mem _
        (List.mem_append.mpr (Or.inr ?_)))
      simp [settleTail]
  · refine List.mem_cons_of_mem _ (List.mem_cons_of_mem _
      (List.mem_append.mpr (Or.inr ?_)))
    cases s.uploadOutcome with
    | ok u => simp [settleTail]
    | error e0 => cases hasRootAdded s.events <;> simp [settleTail]

/-- Witness for claim C5: a transfer that fails with no milestone fired
rejects the caller with that very error, and the lock is released. -/
theorem uploadData_reject_iff_pre_milestone_witness :
    Act.rejectCaller (JsError.sdk 3) ∈
      uploadData ⟨10, 7, none, ⟨true, 0, 0⟩, [], Except.error (JsError.sdk 3)⟩ ∧
    Act.release ∈
      uploadData ⟨10, 7, none, ⟨true, 0, 0⟩, [], Except.error (JsError.sdk 3)⟩ := by
  have h := uploadData_reject_iff_pre_milestone
    ⟨10, 7, none, ⟨true, 0, 0⟩, [], Except.error (JsError.sdk 3)⟩ rfl
  exact ⟨(h.1 (JsError.sdk 3)).mpr ⟨rfl, rfl⟩, h.2⟩

/-- Claim C6: in every run of the lock-holding `uploadData` whose setup
phase succeeded, the lock release is the final action of the run — it
happens only at the terminal milestone (`storage.upload` settling), after
every callback-handler action, including the delivery of the
caller-facing result at the submitted milestone. -/
theorem uploadData_release_only_at_terminal (s : UploadEnv)
    (hse : s.setupError = none) :
    ∃ pre, uploadData s = pre ++ [Act.release] ∧ Act.release ∉ pre := by
  have htail : ∃ t, settleTail (hasRootAdded s.events) s.uploadOutcome =
      t ++ [Act.release] ∧ Act.release ∉ t := by
    cases s.uploadOutcome with
    | ok u => exact ⟨[], rfl, by simp⟩
    | error e =>
      cases hasRootAdded s.events with
      | true => exact ⟨[], by simp [settleTail], by simp⟩
      | false => exact ⟨[Act.rejectCaller e], by simp [settleTail], by simp⟩
  rcases htail with ⟨t, ht, hnt⟩
  refine ⟨Act.acquire :: Act.uploadStart ::
      (emitActions s.size s.proofSetId none false s.events ++ t), ?_, ?_⟩
  · rw [uploadData_setup_ok s hse, ht]
    simp
  · intro hmem
    rcases List.mem_cons.mp hmem with h | h
    · exact absurd h (by simp)
    rcases List.mem_cons.mp h with h' | h'
    · exact absurd h' (by simp)
    rcases List.mem_append.mp h' with h2 | h2
    · exact release_not_mem_emit s.size s.proofSetId s.events none false h2
    · exact hnt h2

/-- Witness for claim C6: even in a run whose caller already received the
result and whose transfer then failed, the one release is the last
action. -/
theorem uploadData_release_only_at_terminal_witness :
    ∃ pre, uploadData ⟨10, 7, none, ⟨true, 0, 0⟩,
        [UploadEvent.uploadComplete 5, UploadEvent.rootAdded none],
        Except.error (JsError.sdk 4)⟩ = pre ++ [Act.release] ∧
      Act.release ∉ pre :=
  uploadData_release_only_at_terminal
    ⟨10, 7, none, ⟨true, 0, 0⟩,
      [UploadEvent.uploadComplete 5, UploadEvent.rootAdded none],
      Except.error (JsError.sdk 4)⟩ rfl

/-- The callback handlers raise the null-dereference fault exactly when
some `onRootAdded` fires with no commp captured yet. -/
theorem fault_mem_emit (size psId : Nat) :
    ∀ (evs : List UploadEvent) (cp : Option Nat),
      (Act.faultNullDeref ∈ emitActions size psId cp false evs) ↔
        acceptedFirst cp evs = false := by
  intro evs
  induction evs with
  | nil => intro cp; simp [emitActions, acceptedFirst]
  | cons e rest ih =>
    intro cp
    cases e with
    | uploadComplete c => simpa [emitActions, acceptedFirst] using ih (some c)
    | rootAdded tx =>
      cases cp with
      | some c => simp [emitActions, acceptedFirst, emit_hr_true]
      | none => simp [emitActions, acceptedFirst, emit_hr_true]
    | rootConfirmed ids => simpa [emitActions, acceptedFirst] using ih cp

/-- Claim C10: in a run of the lock-holding `uploadData` whose setup
phase succeeded, the `capturedCommp.toString()` dereference performed
while building the delivered result is safe exactly when
`onUploadComplete` fired before the first `onRootAdded` (the content
identifier is then non-null); without that precondition the run contains
the null-dereference fault. -/
theorem uploadData_null_deref_iff (s : UploadEnv)
    (hse : s.setupError = none) :
    acceptedFirst none s.events = true ↔
      Act.faultNullDeref ∉ uploadData s := by
  rw [uploadData_setup_ok s hse]
  constructor
  · intro hacc hmem
    rcases List.mem_cons.mp hmem with h | h
    · exact absurd h (by simp)
    rcases List.mem_cons.mp h with h' | h'
    · exact absurd h' (by simp)
    rcases List.mem_append.mp h' with h2 | h2
    · rw [fault_mem_emit s.size s.proofSetId s.events none, hacc] at h2
      exact absurd h2 (by simp)
    · cases ho : s.uploadOutcome with
      | ok u => rw [ho] at h2; simp [settleTail] at h2
      | error e0 =>
        rw [ho] at h2
        cases hasRootAdded s.events <;> simp [settleTail] at h2
  · intro hnot
    by_contra hacc
    have hfalse : acceptedFirst none s.events = false := by
      cases haf : acceptedFirst none s.events
      · rfl
      · exact absurd haf hacc
    apply hnot
    refine List.mem_cons_of_mem _ (List.mem_cons_of_mem _
      (List.mem_append.mpr (Or.inl ?_)))
    exact (fault_mem_emit s.size s.proofSetId s.events none).mpr hfalse

/-- Witness for claim C10: with the payload accepted before the
commitment was submitted, the run performs no null dereference. -/
theorem uploadData_null_deref_iff_witness :
    Act.faultNullDeref ∉ uploadData ⟨10, 7, none, ⟨true, 0, 0⟩,
      [UploadEvent.uploadComplete 5, UploadEvent.rootAdded none],
      Except.ok ()⟩ :=
  (uploadData_null_deref_iff
    ⟨10, 7, none, ⟨true, 0, 0⟩,
      [UploadEvent.uploadComplete 5, UploadEvent.rootAdded none],
      Except.ok ()⟩ rfl).mp (by decide)

/-- The lock-holding `uploadData` never reads the preflight result
object: its behaviour is identical under any reported allowance. -/
theorem uploadData_preflight_irrelevant (s : UploadEnv) (pf : PreflightResult) :
    uploadData { s with preflight := pf } = uploadData s := rfl

/-- Claim C4 (code bug): at a preflight report of
`sufficient = false, required = 100, current = 40`, the lock-holding
`uploadData` still starts `storage.upload` and finishes with no capacity
error — it awaits `preflightUpload` but never inspects the sufficiency
flag — whereas the earlier checked fast-return variant rejects with the
fixed allowance error and never starts the transfer. -/
theorem uploadData_insufficient_preflight_still_transfers :
    uploadData ⟨10, 7, none, ⟨false, 100, 40⟩,
        [UploadEvent.uploadComplete 5, UploadEvent.rootAdded (some 2)],
        Except.ok ()⟩ =
      [Act.acquire, Act.uploadStart, Act.resolveCaller ⟨5, 10, 7⟩, Act.release] ∧
    uploadDataFastReturn ⟨10, 7, none, ⟨false, 100, 40⟩,
        [UploadEvent.uploadComplete 5, UploadEvent.rootAdded (some 2)],
        Except.ok ()⟩ =
      [Act.rejectCaller allowanceErrorFast] :=
  ⟨rfl, rfl⟩

/-- Console records of the preflight check in the fully-awaited variant
of `uploadData`: the failure path logs the required and current
allowance amounts before throwing. -/
inductive LogEntry
  | preflightPassed
  | preflightFailed
  | preflightFailedAmounts (required : Nat) (current : Nat)
  deriving DecidableEq, Repr

/-- The fixed error thrown by the fully-awaited variant of `uploadData`
when the allowance is insufficient. -/
def allowanceErrorFull : JsError :=
  JsError.message
    ("Allowance not sufficient to upload file. Please run the setup script or increase allowance via the web app.")

/-- The preflight sufficiency check of the fully-awaited `uploadData`
(src/services/synapse.js, first variant): on an insufficient allowance
it logs the failure together with the required and current amounts and
throws the fixed error; otherwise it logs success. -/
def preflightUploadCheck (pf : PreflightResult) :
    Except JsError Unit × List LogEntry :=
  if pf.sufficient then (Except.ok (), [LogEntry.preflightPassed])
  else (Except.error allowanceErrorFull,
    [LogEntry.preflightFailed,
      LogEntry.preflightFailedAmounts pf.required pf.current])

/-- Claim C7 counterexample: with the preflight reporting
`required = 100, current = 40`, the error surfaced to the caller is
identical to the one surfaced for `required = 7, current = 3` — a fixed
allowance message — so the surfaced error carries no required/available
amounts. -/
theorem insufficientError_carries_no_amounts :
    uploadDataFastReturn ⟨10, 7, none, ⟨false, 100, 40⟩, [], Except.ok ()⟩ =
      uploadDataFastReturn ⟨10, 7, none, ⟨false, 7, 3⟩, [], Except.ok ()⟩ ∧
    uploadDataFastReturn ⟨10, 7, none, ⟨false, 100, 40⟩, [], Except.ok ()⟩ =
      [Act.rejectCaller allowanceErrorFast] ∧
    (preflightUploadCheck ⟨false, 100, 40⟩).1 =
      (preflightUploadCheck ⟨false, 7, 3⟩).1 :=
  ⟨rfl, rfl, rfl⟩

/-- Claim C7 amended: when the capacity preflight reports insufficient
allowance the call fails with the fixed allowance error — which carries
no amounts — while the required and available amounts are only recorded
in the console log. -/
theorem insufficient_fixed_error_amounts_logged (required current : Nat) :
    (preflightUploadCheck ⟨false, required, current⟩).1 =
      Except.error allowanceErrorFull ∧
    LogEntry.preflightFailedAmounts required current ∈
      (preflightUploadCheck ⟨false, required, current⟩).2 := by
  constructor
  · rfl
  · simp [preflightUploadCheck]

/-- Witness for the amended claim C7 at `required = 100, current = 40`. -/
theorem insufficient_fixed_error_amounts_logged_witness :
    (preflightUploadCheck ⟨false, 100, 40⟩).1 =
      Except.error allowanceErrorFull ∧
    LogEntry.preflightFailedAmounts 100 40 ∈
      (preflightUploadCheck ⟨false, 100, 40⟩).2 :=
  insufficient_fixed_error_amounts_logged 100 40

/-- Modelled from the spec: `lock.service.js` (the `acquireLock` /
`releaseLock` module imported by the lock-holding `uploadData`) is not
among the provided sources; following spec sections 4.1 and 9 it is a
module-level mutual-exclusion primitive with a FIFO wait queue.  A call
is `idle` before requesting the lock, `waiting` while queued, `critical`
while it is the sole holder (the LOCK_HELD-or-later section of its
upload), and `eventually` `done` after releasing. -/
inductive Phase
  | idle
  | waiting
  | critical
  | done
  deriving DecidableEq, Repr

/-- Modelled from the spec: the joint state of the lock and the upload
calls — each call id is mapped to its phase, the lock records whether it
is held, and `waiters` is the FIFO queue of call ids. -/
structure LockSys where
  phase : Nat → Phase
  held : Bool
  waiters : List Nat

/-- Pointwise update of the phase assignment. -/
def setPhase (p : Nat → Phase) (i : Nat) (v : Phase) : Nat → Phase :=
  fun j => if j = i then v else p j

/-- Modelled from the spec: one transition of the lock system.
`acquireLock` on a free lock makes the caller the holder; on a held lock
it appends the caller to the FIFO queue; `releaseLock` either hands the
lock to the first queued waiter or marks it free. -/
inductive LockStep : LockSys → LockSys → Prop
  | acquireFree (s : LockSys) (i : Nat) :
      s.phase i = Phase.idle → s.held = false →
      LockStep s ⟨setPhase s.phase i Phase.critical, true, s.waiters⟩
  | acquireBusy (s : LockSys) (i : Nat) :
      s.phase i = Phase.idle → s.held = true →
      LockStep s ⟨setPhase s.phase i Phase.waiting, true, s.waiters ++ [i]⟩
  | releaseNoWaiter (s : LockSys) (i : Nat) :
      s.phase i = Phase.critical → s.waiters = [] →
      LockStep s ⟨setPhase s.phase i Phase.done, false, []⟩
  | releaseHandoff (s : LockSys) (i j : Nat) (rest : List Nat) :
      s.phase i = Phase.critical → s.waiters = j :: rest →
      LockStep s ⟨setPhase (setPhase s.phase i Phase.done) j Phase.critical, true, rest⟩

/-- The inductive invariant of the lock system: at most one call is in
its critical section, a free lock means no one is critical, every queued
call is waiting, and the queue has no duplicates. -/
def LockInv (s : LockSys) : Prop :=
  (∀ i j, s.phase i = Phase.critical → s.phase j = Phase.critical → i = j) ∧
  (s.held = false → ∀ i, s.phase i ≠ Phase.critical) ∧
  (∀ j ∈ s.waiters, s.phase j = Phase.waiting) ∧
  s.waiters.Nodup

/-- The initial lock system: lock free, queue empty, every call idle. -/
def lockInit : LockSys := ⟨fun _ => Phase.idle, false, []⟩

/-- The initial lock system satisfies the invariant. -/
theorem lockInv_init : LockInv lockInit := by
  refine ⟨?_, ?_, ?_, ?_⟩
  · intro i j hi
    simp [lockInit] at hi
  · intro _ i hi
    simp [lockInit] at hi
  · intro j hj
    simp [lockInit] at hj
  · simp [lockInit]

/-- Every transition of the lock system preserves the invariant. -/
theorem lockInv_step (s s' : LockSys) (hinv : LockInv s) (hstep : LockStep s s') :
    LockInv s' := by
  obtain ⟨hmutex, hfree, hwait, hnodup⟩ := hinv
  cases hstep with
  | acquireFree i hidle hheld =>
    have key : ∀ x, setPhase s.phase i Phase.critical x = Phase.critical → x = i := by
      intro x hx
      by_cases hxi : x = i
      · exact hxi
      · rw [setPhase, if_neg hxi] at hx
        exact absurd hx (hfree hheld x)
    refine ⟨?_, ?_, ?_, hnodup⟩
    · intro a b ha hb
      rw [key a ha, key b hb]
    · intro hcontra
      simp at hcontra
    · intro j hj
      have hwj := hwait j hj
      have hji : j ≠ i := by
        intro h
        rw [h, hidle] at hwj
        exact absurd hwj (by simp)
      show setPhase s.phase i Phase.critical j = Phase.waiting
      simp only [setPhase]
      rw [if_neg hji]
      exact hwj
  | acquireBusy i hidle hheld =>
    have key : ∀ x, setPhase s.phase i Phase.waiting x = Phase.critical → s.phase x = Phase.critical := by
      intro x hx
      by_cases hxi : x = i
      · rw [setPhase, if_pos hxi] at hx
        exact absurd hx (by simp)
      · rw [setPhase, if_neg hxi] at hx
        exact hx
    have hinotw : i ∉ s.waiters := by
      intro hmem
      have := hwait i hmem
      rw [hidle] at this
      exact absurd this (by simp)
    refine ⟨?_, ?_, ?_, ?_⟩
    · intro a b ha hb
      exact hmutex a b (key a ha) (key b hb)
    · intro hcontra
      simp at hcontra
    · intro j hj
      rcases List.mem_append.mp hj with h | h
      · have hwj := hwait j h
        have hji : j ≠ i := by
          intro he
          rw [he, hidle] at hwj
          exact absurd hwj (by simp)
        show setPhase s.phase i Phase.waiting j = Phase.waiting
        simp only [setPhase]
        rw [if_neg hji]
        exact hwj
      · have hji : j = i := by simpa using h
        show setPhase s.phase i Phase.waiting j = Phase.waiting
        simp only [setPhase]
        rw [if_pos hji]
    · rw [List.nodup_append]
      exact ⟨hnodup, List.nodup_singleton i, by
        intro a ha hb
        have : a = i := by simpa using hb
        rw [this] at ha
        exact hinotw ha⟩
  | releaseNoWaiter i hcrit hempty =>
    have key : ∀ x, setPhase s.phase i Phase.done x ≠ Phase.critical := by
      intro x hx
      by_cases hxi : x = i
      · rw [setPhase, if_pos hxi] at hx
        exact absurd hx (by simp)
      · rw [setPhase, if_neg hxi] at hx
        exact hxi (hmutex x i hx hcrit)
    refine ⟨?_, ?_, ?_, ?_⟩
    · intro a b ha
      exact absurd ha (key a)
    · intro _ x
      exact key x
    · intro j hj
      simp at hj
    · simp
  | releaseHandoff i j rest hcrit hqueue =>
    have hwj : s.phase j = Phase.waiting := hwait j (by rw [hqueue]; exact List.mem_cons_self j rest)
    have hji : j ≠ i := by
      intro he
      rw [he, hcrit] at hwj
      exact absurd hwj (by simp)
    have hnodup2 : (j :: rest).Nodup := by rw [hqueue] at hnodup; exact hnodup
    have key : ∀ x, setPhase (setPhase s.phase i Phase.done) j Phase.critical x = Phase.critical → x = j := by
      intro x hx
      by_cases hxj : x = j
      · exact hxj
      · rw [setPhase, if_neg hxj] at hx
        by_cases hxi : x = i
        · rw [setPhase, if_pos hxi] at hx
          exact absurd hx (by simp)
        · rw [setPhase, if_neg hxi] at hx
          exact absurd (hmutex x i hx hcrit) hxi
    refine ⟨?_, ?_, ?_, ?_⟩
    · intro a b ha hb
      rw [key a ha, key b hb]
    · intro hcontra
      simp at hcontra
    · intro k hk
      have hkmem : k ∈ s.waiters := by rw [hqueue]; exact List.mem_cons_of_mem j hk
      have hwk := hwait k hkmem
      have hkj : k ≠ j := by
        intro he
        rw [he] at hk
        exact (List.nodup_cons.mp hnodup2).1 hk
      have hki : k ≠ i := by
        intro he
        rw [he, hcrit] at hwk
        exact absurd hwk (by simp)
      show setPhase (setPhase s.phase i Phase.done) j Phase.critical k = Phase.waiting
      simp only [setPhase]
      rw [if_neg hkj, if_neg hki]
      exact hwk
    · exact (List.nodup_cons.mp hnodup2).2

/-- The invariant holds in every reachable state of the lock system. -/
theorem lockInv_reachable (s : LockSys)
    (h : Relation.ReflTransGen LockStep lockInit s) : LockInv s := by
  induction h with
  | refl => exact lockInv_init
  | tail hsteps hstep ih => exact lockInv_step _ _ ih hstep

/-- Claim C8: for any number of concurrent upload calls driving the
FIFO lock of `lock.service.js` (modelled from the spec), in every
reachable state at most one call is inside the lock-protected critical
section (LOCK_HELD or later): two calls in the critical section are the
same call, so acquisition/release events of distinct calls never
overlap. -/
theorem lock_mutual_exclusion (s : LockSys)
    (h : Relation.ReflTransGen LockStep lockInit s) (i j : Nat)
    (hi : s.phase i = Phase.critical) (hj : s.phase j = Phase.critical) :
    i = j :=
  (lockInv_reachable s h).1 i j hi hj

/-- The lock system after call 0 acquires the free lock. -/
def lockDemo : LockSys :=
  ⟨setPhase (fun _ => Phase.idle) 0 Phase.critical, true, []⟩

/-- Witness for claim C8: after call 0 acquires the free lock it is in
the critical section, and the only critical call is call 0 itself. -/
theorem lock_mutual_exclusion_witness :
    lockDemo.phase 0 = Phase.critical ∧ (0 : Nat) = 0 :=
  ⟨rfl, lock_mutual_exclusion lockDemo
    (Relation.ReflTransGen.single (LockStep.acquireFree lockInit 0 rfl rfl))
    0 0 rfl rfl⟩

/-- The module-level singleton state of `src/services/synapse.js`:
`synapseInstance` (initially null) plus an instrumentation counter of
how many times `Synapse.create` has been invoked.  Created instances are
identified by the value of the counter at creation time. -/
structure SynapseModule where
  synapseInstance : Option Nat
  createCalls : Nat
  deriving DecidableEq, Repr

/-- `getSynapse`: when `synapseInstance` is null, invoke `Synapse.create`,
store the fresh instance and return it; otherwise return the stored
instance. -/
def getSynapse : SynapseModule → SynapseModule × Nat
  | ⟨none, c⟩ => (⟨some c, c + 1⟩, c)
  | ⟨some i, c⟩ => (⟨some i, c⟩, i)

/-- A sequence of n sequential `getSynapse` calls, returning the final
module state and the list of returned instances. -/
def runGetSynapseCalls : SynapseModule → Nat → SynapseModule × List Nat
  | m, 0 => (m, [])
  | m, n + 1 =>
    let r := getSynapse m
    let rs := runGetSynapseCalls r.1 n
    (rs.1, r.2 :: rs.2)

/-- The module state at process start: no instance, no creations. -/
def synapseInit : SynapseModule := ⟨none, 0⟩

/-- Once an instance is stored, `getSynapse` never creates again and
always returns the stored instance. -/
theorem runGetSynapseCalls_stable (n : Nat) :
    ∀ (i c : Nat), runGetSynapseCalls ⟨some i, c⟩ n =
      (⟨some i, c⟩, List.replicate n i) := by
  induction n with
  | zero => intro i c; rfl
  | succ n ih =>
    intro i c
    simp [runGetSynapseCalls, getSynapse, ih, List.replicate]

/-- Claim C9: `getSynapse` is idempotent over any number of sequential
calls from process start — `Synapse.create` is invoked at most once, and
every call returns the same instance (the one created first). -/
theorem getSynapse_create_at_most_once (n : Nat) :
    (runGetSynapseCalls synapseInit n).1.createCalls ≤ 1 ∧
      (runGetSynapseCalls synapseInit n).2 = List.replicate n 0 := by
  cases n with
  | zero => exact ⟨by simp [runGetSynapseCalls, synapseInit], rfl⟩
  | succ n =>
    have h : runGetSynapseCalls synapseInit (n + 1) =
        (⟨some 0, 1⟩, 0 :: List.replicate n 0) := by
      simp [runGetSynapseCalls, synapseInit, getSynapse, runGetSynapseCalls_stable]
    rw [h]
    exact ⟨le_refl 1, rfl⟩

/-- Witness for claim C9 at three sequential calls. -/
theorem getSynapse_create_at_most_once_witness :
    (runGetSynapseCalls synapseInit 3).1.createCalls ≤ 1 ∧
      (runGetSynapseCalls synapseInit 3).2 = List.replicate 3 0 :=
  getSynapse_create_at_most_once 3
